import Mathlib

/-!
Verification of the society-simulation engine (`society_sim/engine`).

Shallow embedding conventions:
* Python floats are modelled as rationals (`ℚ`).
* Python dicts are association lists preserving insertion order; lookup
  returns the first (unique) matching key, assignment replaces in place.
* A world is a dict of sections, each section a dict of variables whose
  values are either numbers or `Val.obj`, an opaque non-numeric value on
  which Python `float()` raises.
* Fallible code (KeyError, TypeError, ValueError) returns `Except Unit`.
-/

namespace SocietySim

/-- A Python value stored in a world section: a number, or an opaque
non-numeric object (dict/list/None), on which `float()` raises. -/
inductive Val where
  | num (q : ℚ)
  | obj
deriving DecidableEq

/-- A world section: an insertion-ordered dict from variable name to value. -/
abbrev WSection := List (String × Val)

/-- A world: an insertion-ordered dict from section name to section. -/
abbrev World := List (String × WSection)

/-- Python dict lookup `d.get(k)` / `d[k]`: first matching key. -/
def alookup {α : Type} : List (String × α) → String → Option α
  | [], _ => none
  | (k, v) :: rest, key => if k = key then some v else alookup rest key

/-- Python dict assignment `d[k] = v`: replace in place, else append. -/
def aset {α : Type} : List (String × α) → String → α → List (String × α)
  | [], key, v => [(key, v)]
  | (k, w) :: rest, key, v =>
      if k = key then (key, v) :: rest else (k, w) :: aset rest key v

/-! ### String normalisation and numeric parsing (`_parse_effect`) -/

/-- `str.strip()`: drop whitespace at both ends (char-level model). -/
def trimChars (cs : List Char) : List Char :=
  ((cs.dropWhile Char.isWhitespace).reverse.dropWhile Char.isWhitespace).reverse

/-- `value.strip().replace(" ", "")` from `_parse_effect`. -/
def strip_spaces (s : String) : List Char :=
  (trimChars s.data).filter (fun c => c ≠ ' ')

/-- Value of a digit string (most significant first). -/
def digitsToNat (cs : List Char) : Nat :=
  cs.foldl (fun n c => 10 * n + (c.toNat - 48)) 0

/-- Recogniser/evaluator for the regex body `\d*\.?\d+`
(ASCII digits; an optionally dotted decimal ending in a digit). -/
def parseDecBody (cs : List Char) : Option ℚ :=
  let ip := cs.takeWhile Char.isDigit
  let rest := cs.dropWhile Char.isDigit
  match rest with
  | [] => if ip.isEmpty then none else some (digitsToNat ip : ℚ)
  | '.' :: fp =>
      if fp ≠ [] ∧ fp.all Char.isDigit then
        some ((digitsToNat ip : ℚ) + (digitsToNat fp : ℚ) / (10 : ℚ) ^ fp.length)
      else none
  | _ => none

/-- Recogniser/evaluator for `[+-]?\d*\.?\d+`. -/
def parseSignedBody (cs : List Char) : Option ℚ :=
  match cs with
  | '+' :: rest => parseDecBody rest
  | '-' :: rest => (parseDecBody rest).map Neg.neg
  | _ => parseDecBody cs

/-- `re.fullmatch(r"([+-]?\d*\.?\d+)%", s)`: returns the numeric part. -/
def matchPctNum (cs : List Char) : Option ℚ :=
  match cs.getLast? with
  | some '%' => parseSignedBody cs.dropLast
  | _ => none

/-- Mantissa of a Python float literal: digits with an optional dot,
at least one digit overall; returns the value and the unconsumed rest. -/
def parseFloatMantissa (cs : List Char) : Option (ℚ × List Char) :=
  let ip := cs.takeWhile Char.isDigit
  let rest := cs.dropWhile Char.isDigit
  match rest with
  | '.' :: rest2 =>
      let fp := rest2.takeWhile Char.isDigit
      let rest3 := rest2.dropWhile Char.isDigit
      if ip.isEmpty ∧ fp.isEmpty then none
      else some ((digitsToNat ip : ℚ) + (digitsToNat fp : ℚ) / (10 : ℚ) ^ fp.length, rest3)
  | _ => if ip.isEmpty then none else some ((digitsToNat ip : ℚ), rest)

/-- Optional exponent part `([eE][+-]?\d+)?` of a float literal. -/
def parseExpPart : List Char → Option ℤ
  | [] => some 0
  | c :: rest =>
      if c = 'e' ∨ c = 'E' then
        match rest with
        | '+' :: ds => if ds ≠ [] ∧ ds.all Char.isDigit then some (digitsToNat ds : ℤ) else none
        | '-' :: ds => if ds ≠ [] ∧ ds.all Char.isDigit then some (-(digitsToNat ds : ℤ)) else none
        | ds => if ds ≠ [] ∧ ds.all Char.isDigit then some (digitsToNat ds : ℤ) else none
      else none

/-- Python `float(s)` on an already-stripped string, modelled on finite
decimal literals with optional sign and exponent (`inf`/`nan`/underscore
forms are treated as unparseable). -/
def pyFloatParse (cs : List Char) : Option ℚ :=
  let signBody : ℚ × List Char :=
    match cs with
    | '+' :: r => (1, r)
    | '-' :: r => (-1, r)
    | r => (1, r)
  match parseFloatMantissa signBody.2 with
  | some (m, rest) => (parseExpPart rest).map (fun e => signBody.1 * m * (10 : ℚ) ^ e)
  | none => none

/-- `_parse_effect(value, current)`: percentage deltas are relative to
`current`; otherwise the string must parse as a number (absolute delta);
anything else falls back to `0`. -/
def parse_effect (value : String) (current : ℚ) : ℚ :=
  let s := strip_spaces value
  match matchPctNum s with
  | some p => current * (p / 100)
  | none =>
      match pyFloatParse s with
      | some q => q
      | none => 0

/-! ### Static classification tables (`interpret_actions.py`) -/

/-- `RANGE01_KEYS`: bounded-ratio variables, clamped to `[0,1]`. -/
def RANGE01_KEYS : List (String × String) :=
  [("Society", "morale"), ("Society", "inequality"),
   ("Society", "religious_influence"), ("Society", "urbanization"), ("Society", "education"),
   ("Economy", "tax_rate"), ("Economy", "rents_rate"), ("Economy", "tithe_rate"),
   ("Economy", "trade_intensity"), ("Economy", "price_level"), ("Economy", "productivity"),
   ("State", "legitimacy"), ("State", "stability"), ("State", "borders_threat"), ("State", "corruption"),
   ("Infrastructure", "roads_quality"), ("Infrastructure", "fortifications"), ("Infrastructure", "market_access"),
   ("Environment", "harvest_quality"), ("Environment", "plague_pressure"),
   ("Environment", "winter_severity"), ("Environment", "disaster_risk")]

/-- `STOCK_KEYS`: stock variables, clamped to `≥ 0`. -/
def STOCK_KEYS : List (String × String) :=
  [("Resources", "food"), ("Resources", "coinage"), ("Resources", "timber"),
   ("Resources", "iron"), ("Resources", "manpower"), ("Infrastructure", "granaries_capacity"),
   ("Society", "population")]

/-! ### Key resolution (`_find_path`) -/

/-- `key.split(".", 1)` on the character list: the part before the first
dot and the part after it. -/
def split_first_dot (cs : List Char) : List Char × List Char :=
  (cs.takeWhile (fun c => c ≠ '.'), (cs.dropWhile (fun c => c ≠ '.')).drop 1)

/-- Bare-key branch of `_find_path`: search all sections in insertion
order for one containing the variable (sections are always dicts here). -/
def find_section : World → String → Option (String × String)
  | [], _ => none
  | (sec, s) :: rest, key =>
      if (alookup s key).isSome then some (sec, key) else find_section rest key

/-- Dotted branch of `_find_path`: both components must already exist. -/
def find_dotted (world : World) (sec var : String) : Option (String × String) :=
  match alookup world sec with
  | some s => if (alookup s var).isSome then some (sec, var) else none
  | none => none

/-- `_find_path(world, key)`: accept `"Section.var"` (both components
must exist) or a bare `"var"` searched across all sections. -/
def find_path (world : World) (key : String) : Option (String × String) :=
  if '.' ∈ key.data then
    find_dotted world ⟨(split_first_dot key.data).1⟩ ⟨(split_first_dot key.data).2⟩
  else
    find_section world key

/-! ### Effect application (`apply_effects`) -/

/-- `max(0.0, min(1.0, x))`. -/
def clamp01 (x : ℚ) : ℚ := max 0 (min 1 x)

/-- Python `float(cur)` on a stored value: raises (`none`) on the opaque
non-numeric value. -/
def pyFloat : Val → Option ℚ
  | .num q => some q
  | .obj => none

/-- Update of one resolved variable: parse the delta against the current
value, then write back with the class-specific clamp. `Except.error`
models the uncaught `float(cur)` failure in the bounded-ratio/stock
branches; the unclassified branch catches it (`continue`). -/
def apply_update (out : World) (sec var : String) (s : WSection) (cur : Val)
    (vstr : String) : Except Unit World :=
  let current : ℚ := match cur with | .num q => q | .obj => 0
  let delta := parse_effect vstr current
  if (sec, var) ∈ RANGE01_KEYS then
    match pyFloat cur with
    | some c => .ok (aset out sec (aset s var (.num (clamp01 (c + delta)))))
    | none => .error ()
  else if (sec, var) ∈ STOCK_KEYS then
    match pyFloat cur with
    | some c => .ok (aset out sec (aset s var (.num (max 0 (c + delta)))))
    | none => .error ()
  else
    match pyFloat cur with
    | some c => .ok (aset out sec (aset s var (.num (c + delta))))
    | none => .ok out

/-- One iteration of the `apply_effects` loop on the working copy `out`:
resolve the key, then update (an unresolvable key is skipped). -/
def apply_step (out : World) (key : String) (vstr : String) : Except Unit World :=
  match find_path out key with
  | none => .ok out
  | some (sec, var) =>
      match alookup out sec with
      | none => .ok out
      | some s =>
          match alookup s var with
          | none => .ok out
          | some cur => apply_update out sec var s cur vstr

/-- The `apply_effects` loop over the effects dict in insertion order. -/
def apply_loop : World → List (String × String) → Except Unit World
  | out, [] => .ok out
  | out, (k, v) :: rest =>
      match apply_step out k v with
      | .ok out2 => apply_loop out2 rest
      | .error e => .error e

/-- `copy.deepcopy(world)`: under value semantics a deep copy is the
value itself; the copy is what the loop mutates. -/
def deepcopy (w : World) : World := w

/-- `apply_effects(world, expected_effects)`. -/
def apply_effects (world : World) (expected_effects : List (String × String)) :
    Except Unit World :=
  apply_loop (deepcopy world) expected_effects

/-- State-passing form of `apply_effects`: the first component is the
caller's world after the call (all writes target the deep copy, so it is
returned unchanged), the second is the function's result. -/
def apply_effects_st (world : World) (expected_effects : List (String × String)) :
    World × Except Unit World :=
  (world, apply_loop (deepcopy world) expected_effects)

/-! ### Arbitration (`arbitration.py`) -/

/-- `PRIORITY`: static weights; bigger number = earlier. -/
def PRIORITY : List (String × Int) :=
  [("Resources.food", 100),
   ("State.stability", 95),
   ("State.legitimacy", 90),
   ("Economy.price_level", 70),
   ("Economy.trade_intensity", 60)]

/-- `_score_action(effects)`: fold `max` from `0` over the per-key
weights, each defaulting to `50`. -/
def score_action (effects : List (String × String)) : Int :=
  effects.foldl (fun score kv => max score ((alookup PRIORITY kv.1).getD 50)) 0

/-- A proposed action as consumed by arbitration: a role name and its
declared effects dict (other dict fields are irrelevant here). -/
structure Action where
  role_name : String
  expected_effects : List (String × String)
deriving DecidableEq

/-- Sort-key order used to model Python's stable descending sort in
`order_actions`: higher score first, ties by original position. -/
def act_le (a b : Nat × Action) : Prop :=
  score_action b.2.expected_effects < score_action a.2.expected_effects ∨
    (score_action a.2.expected_effects = score_action b.2.expected_effects ∧ a.1 ≤ b.1)

instance : DecidableRel act_le := fun a b => by
  unfold act_le
  exact inferInstance

instance : IsTotal (Nat × Action) act_le := by
  constructor
  intro a b
  unfold act_le
  omega

instance : IsTrans (Nat × Action) act_le := by
  constructor
  intro a b c hab hbc
  unfold act_le at *
  omega

/-- `order_actions(decisions)`: Python's `sorted(…, key=score, reverse=True)`
is a stable sort; modelled as insertion sort of the position-tagged list
by (score descending, position ascending). -/
def order_actions (decisions : List Action) : List Action :=
  ((decisions.enum).insertionSort act_le).map Prod.snd

/-- Guardrail config: `Dict[str, Any]` of named numeric floors;
`guards["…"]` on a missing key raises `KeyError`. -/
abbrev Guards := List (String × ℚ)

/-- `section.get(var, default) < floor` operand: a missing variable uses
the default, a non-numeric value makes the comparison raise `TypeError`. -/
def getNum (s : WSection) (k : String) (dflt : ℚ) : Except Unit ℚ :=
  match alookup s k with
  | some (.num q) => .ok q
  | some .obj => .error ()
  | none => .ok dflt

/-- `violates_guardrails(pre_world, post_world, guards)`: post-only floor
checks (stability, legitimacy strictly below; food at or below);
`pre_world` is never read. -/
def violates_guardrails (pre_world post_world : World) (guards : Guards) :
    Except Unit Bool :=
  let s := (alookup post_world "State").getD []
  let r := (alookup post_world "Resources").getD []
  match alookup guards "min_stability" with
  | none => .error ()
  | some gs =>
      match getNum s "stability" 1 with
      | .error e => .error e
      | .ok stab =>
          if stab < gs then .ok true else
          match alookup guards "min_legitimacy" with
          | none => .error ()
          | some gl =>
              match getNum s "legitimacy" 1 with
              | .error e => .error e
              | .ok leg =>
                  if leg < gl then .ok true else
                  match alookup guards "min_food" with
                  | none => .error ()
                  | some gf =>
                      match getNum r "food" 0 with
                      | .error e => .error e
                      | .ok food => .ok (decide (food ≤ gf))

/-- `cur = d; for p in path: cur = cur.get(p, {})` specialised to the
two-component paths used by `is_negligible_change`; returns the value
only when numeric. -/
def get_path2 (d : World) (sec var : String) : Option ℚ :=
  match alookup d sec with
  | some s =>
      match alookup s var with
      | some (.num q) => some q
      | _ => none
  | none => none

/-- Stock paths tracked by `is_negligible_change`. -/
def NEG_STOCKS : List (String × String) :=
  [("Resources", "food"), ("Resources", "coinage"), ("Resources", "manpower"),
   ("Resources", "timber"), ("Resources", "iron")]

/-- Bounded-ratio paths tracked by `is_negligible_change`. -/
def NEG_RANGES : List (String × String) :=
  [("Society", "morale"), ("State", "stability"), ("State", "legitimacy"),
   ("Economy", "trade_intensity"), ("Economy", "price_level")]

/-- `is_negligible_change(pre_world, post_world, min_stock_pct)`: false as
soon as one tracked variable present in both worlds moved by at least the
class threshold, else true. -/
def is_negligible_change (pre_world post_world : World) (min_stock_pct : ℚ) : Bool :=
  (NEG_STOCKS.all fun p =>
    match get_path2 pre_world p.1 p.2, get_path2 post_world p.1 p.2 with
    | some a, some b => decide (|b - a| < |a| * min_stock_pct)
    | _, _ => true) &&
  (NEG_RANGES.all fun p =>
    match get_path2 pre_world p.1 p.2, get_path2 post_world p.1 p.2 with
    | some a, some b => decide (|b - a| < 1 / 100)
    | _, _ => true)

/-! ### Message bus (`message_bus.py`) -/

/-- A bus message. `content` values are modelled as strings (the claims
only exercise string-valued content); the wall-clock `created_at`
timestamp is unused by every bus/coordination operation and omitted. -/
structure Message where
  sender : String
  receivers : List String
  intent : String
  content : List (String × String)
  valid_until_tick : Nat
  id : String
deriving DecidableEq

/-- The bus state: the append-only `_messages` log. -/
abbrev MessageBus := List Message

/-- `MessageBus.post`. -/
def post (bus : MessageBus) (m : Message) : MessageBus := bus ++ [m]

/-- `MessageBus.inbox(role, tick)`. -/
def inbox (bus : MessageBus) (role : String) (tick : Nat) : List Message :=
  bus.filter fun m => decide (role ∈ m.receivers ∧ tick ≤ m.valid_until_tick)

/-- `MessageBus.all_for_tick(tick)`. -/
def all_for_tick (bus : MessageBus) (tick : Nat) : List Message :=
  bus.filter fun m => decide (tick ≤ m.valid_until_tick)

/-- `MessageBus.gc(tick)`: drop everything that expired before `tick`. -/
def gc (bus : MessageBus) (tick : Nat) : MessageBus :=
  bus.filter fun m => decide (tick ≤ m.valid_until_tick)

/-- A bus-mutating operation, for stating permanence of `gc`. -/
inductive BusOp where
  | post (m : Message)
  | gc (tick : Nat)
deriving DecidableEq

/-- Run a sequence of bus operations. -/
def run_ops (bus : MessageBus) : List BusOp → MessageBus
  | [] => bus
  | .post m :: rest => run_ops (post bus m) rest
  | .gc t :: rest => run_ops (gc bus t) rest

/-! ### Coordination (`coordination.py`) -/

/-- Lexicographic code-point order on character lists — Python's string
`<`. -/
def charListLt : List Char → List Char → Bool
  | [], [] => false
  | [], _ :: _ => true
  | _ :: _, [] => false
  | a :: as, b :: bs => if a < b then true else if b < a then false else charListLt as bs

/-- Stable insertion of `x` before the first element not below it. -/
def binsert {α : Type} (le : α → α → Bool) (x : α) : List α → List α
  | [] => [x]
  | y :: ys => if le x y then x :: y :: ys else y :: binsert le x ys

/-- Stable insertion sort — the result of Python's `sorted`. -/
def bsort {α : Type} (le : α → α → Bool) : List α → List α
  | [] => []
  | y :: ys => binsert le y (bsort le ys)

/-- `sorted` order on `(key, value)` pairs: Python tuple comparison. -/
def pairLe (a b : String × String) : Bool :=
  !(charListLt b.1.data a.1.data ||
    (b.1 = a.1 && charListLt b.2.data a.2.data))

/-- `sorted` order on plain strings. -/
def strLe (a b : String) : Bool := !charListLt b.data a.data

/-- `re.sub(r"^([+-])0+(\d)", r"\1\2", s)` on the character list: after a
sign, a maximal run of zeros is collapsed so that a digit follows. -/
def norm_zeros (cs : List Char) : List Char :=
  match cs with
  | c :: rest =>
      if c = '+' ∨ c = '-' then
        let z := rest.takeWhile (fun d => d = '0')
        let u := rest.dropWhile (fun d => d = '0')
        if z.isEmpty then cs
        else
          match u with
          | d :: _ => if d.isDigit then c :: u
                      else if 2 ≤ z.length then c :: '0' :: u else cs
          | [] => if 2 ≤ z.length then c :: '0' :: u else cs
      else cs
  | [] => []

/-- `_norm_val(v)`: `str(v).strip()` then drop all whitespace, then
collapse a signed leading-zero run. -/
def norm_val (v : String) : String :=
  ⟨norm_zeros (v.data.filter fun c => !c.isWhitespace)⟩

/-- `_key_from_content(c)`: `""` for an empty dict, else the sorted
`"k:v"` pairs (trimmed key, normalised value) joined with `"|"`. -/
def key_from_content (c : List (String × String)) : String :=
  if c.isEmpty then "" else
  let items := bsort pairLe (c.map fun kv => (⟨trimChars kv.1.data⟩, norm_val kv.2))
  String.intercalate "|" (items.map fun kv => kv.1 ++ ":" ++ kv.2)

/-- Intents grouped as proposal-like. -/
def ProposeLike : List String := ["propose", "request", "counter"]

/-- Intents treated as direct commitments. -/
def CommitLike : List String := ["commit"]

/-- Intents treated as acceptances. -/
def AcceptLike : List String := ["accept"]

/-- `proposes.setdefault(sig, []).append(m)`. -/
def add_propose (ps : List (String × List Message)) (sig : String) (m : Message) :
    List (String × List Message) :=
  match alookup ps sig with
  | some l => aset ps sig (l ++ [m])
  | none => ps ++ [(sig, [m])]

/-- Loop of the first pass of `extract_accepted_agreements`. -/
def build_proposes_from (ps : List (String × List Message)) :
    List Message → List (String × List Message)
  | [] => ps
  | m :: rest =>
      build_proposes_from
        (if m.intent ∈ ProposeLike then add_propose ps (key_from_content m.content) m
         else ps)
        rest

/-- First pass of `extract_accepted_agreements`: group proposal-like
messages by content signature, in message order. -/
def build_proposes (msgs : List Message) : List (String × List Message) :=
  build_proposes_from [] msgs

/-- An extracted agreement (`by` / `partners` / `terms` record). -/
structure Agreement where
  proposer : String
  partners : List String
  terms : List (String × String)
deriving DecidableEq

/-- Agreements contributed by one message in the second pass: a commit
yields itself; an accept yields the latest proposal-like message with the
same content signature, or nothing if there is none. -/
def agreement_of (proposes : List (String × List Message)) (m : Message) :
    List Agreement :=
  if m.intent ∈ CommitLike then
    [⟨m.sender, m.receivers, m.content⟩]
  else if m.intent ∈ AcceptLike then
    match alookup proposes (key_from_content m.content) with
    | some srcs =>
        match srcs.getLast? with
        | some src => [⟨src.sender, src.receivers, src.content⟩]
        | none => []
    | none => []
  else []

/-- Loop of the second pass: collect agreements in message order. -/
def collect_agreements (proposes : List (String × List Message))
    (acc : List Agreement) : List Message → List Agreement
  | [] => acc
  | m :: rest => collect_agreements proposes (acc ++ agreement_of proposes m) rest

/-- Second pass: collect agreements over all messages in order. -/
def raw_agreements (msgs : List Message) : List Agreement :=
  collect_agreements (build_proposes msgs) [] msgs

/-- The dedup signature `(by, tuple(sorted(partners)), terms key)`. -/
def agreement_sig (a : Agreement) : String × List String × String :=
  (a.proposer, bsort strLe a.partners, key_from_content a.terms)

/-- Final pass: keep the first agreement per signature. -/
def dedup_agreements : List Agreement → List (String × List String × String) → List Agreement
  | [], _ => []
  | a :: rest, seen =>
      if agreement_sig a ∈ seen then dedup_agreements rest seen
      else a :: dedup_agreements rest (agreement_sig a :: seen)

/-- `extract_accepted_agreements(messages)`. -/
def extract_accepted_agreements (messages : List Message) : List Agreement :=
  dedup_agreements (raw_agreements messages) []

/-- A world whose stored values are all numeric. -/
def numeric_world (w : World) : Prop :=
  ∀ p ∈ w, ∀ e ∈ p.2, e.2 ≠ Val.obj

/-- Scoring rule as the spec words it: each action takes the maximum
priority among its effect keys, with baseline 50 when no key matches
(an empty effects dict therefore scores the baseline). Written to be
compared with the code's `score_action`, which folds from 0. -/
def score_action_spec (effects : List (String × String)) : Int :=
  (effects.map fun kv => (alookup PRIORITY kv.1).getD 50).foldl max 50

/-! ### Helper lemmas -/

theorem split_first_dot_eq (a b : List Char) (ha : '.' ∉ a) :
    split_first_dot (a ++ '.' :: b) = (a, b) := by
  induction a with
  | nil => simp [split_first_dot]
  | cons c cs ih =>
      have hc : c ≠ '.' := fun h => ha (h ▸ List.mem_cons_self c cs)
      have hcs : '.' ∉ cs := fun h => ha (List.mem_cons_of_mem c h)
      have ih' := ih hcs
      simp only [split_first_dot, List.cons_append, List.takeWhile_cons,
        List.dropWhile_cons] at ih' ⊢
      simp only [hc, decide_not, decide_eq_true_eq, if_true, if_false] at ih' ⊢
      simp_all

theorem string_data_append (a b : String) : (a ++ b).data = a.data ++ b.data := rfl

theorem dotted_key_data (sec var : String) :
    (sec ++ "." ++ var).data = sec.data ++ '.' :: var.data := by
  rw [string_data_append, string_data_append]
  simp

theorem find_path_dotted (w : World) (sec var : String) (s : WSection)
    (hdot : '.' ∉ sec.data)
    (hsec : alookup w sec = some s) (hvar : (alookup s var).isSome) :
    find_path w (sec ++ "." ++ var) = some (sec, var) := by
  unfold find_path
  rw [dotted_key_data sec var, split_first_dot_eq sec.data var.data hdot,
    if_pos (show ('.' ∈ sec.data ++ '.' :: var.data) by simp)]
  show find_dotted w sec var = some (sec, var)
  unfold find_dotted
  rw [hsec]
  simp [hvar]

/-- Single-effect unfolding of `apply_effects`. -/
theorem apply_effects_singleton (w : World) (k v : String) :
    apply_effects w [(k, v)] = apply_step w k v := by
  show apply_loop (deepcopy w) [(k, v)] = apply_step w k v
  rcases h : apply_step w k v with e | out2 <;> simp [apply_loop, deepcopy, h]

/-- Resolution lemma: a resolved key updates through `apply_update`. -/
theorem apply_step_resolved (out : World) (key vstr sec var : String)
    (s : WSection) (cur : Val)
    (hfp : find_path out key = some (sec, var))
    (hsec : alookup out sec = some s)
    (hvar : alookup s var = some cur) :
    apply_step out key vstr = apply_update out sec var s cur vstr := by
  simp only [apply_step, hfp, hsec, hvar]

theorem stock_not_range01 (p : String × String) (h : p ∈ STOCK_KEYS) :
    p ∉ RANGE01_KEYS := by
  fin_cases h <;> decide

/-! ### C1 -/

/-- C1: for a bounded-ratio variable `(sec, var)` holding numeric value
`v`, a percentage delta string whose numeric part is `q` makes
`apply_effects` set the variable to `clamp(v + v*q/100, 0, 1)`. -/
theorem apply_effects_range01_pct
    (w : World) (sect : WSection) (sec var : String) (v q : ℚ) (st : String)
    (hmem : (sec, var) ∈ RANGE01_KEYS)
    (hdot : '.' ∉ sec.data)
    (hsec : alookup w sec = some sect)
    (hvar : alookup sect var = some (.num v))
    (hpct : matchPctNum (strip_spaces st) = some q) :
    apply_effects w [(sec ++ "." ++ var, st)] =
      .ok (aset w sec (aset sect var (.num (max 0 (min 1 (v + v * q / 100)))))) := by
  have hfp : find_path w (sec ++ "." ++ var) = some (sec, var) :=
    find_path_dotted w sec var sect hdot hsec (by rw [hvar]; rfl)
  rw [apply_effects_singleton,
    apply_step_resolved w (sec ++ "." ++ var) st sec var sect (.num v) hfp hsec hvar]
  have hparse : parse_effect st v = v * (q / 100) := by
    simp only [parse_effect, hpct]
  simp only [apply_update, pyFloat, hmem, if_pos, hparse, clamp01]
  rw [mul_div_assoc]

/-- Witness for C1: stability 0.5 with delta "+10%" becomes 0.55. -/
theorem apply_effects_range01_pct_witness :
    apply_effects [("State", [("stability", Val.num (1/2))])] [("State.stability", "+10%")] =
      .ok [("State", [("stability", Val.num (11/20))])] := by
  have h := apply_effects_range01_pct
    [("State", [("stability", Val.num (1/2))])] [("stability", Val.num (1/2))]
    "State" "stability" (1/2) 10 "+10%"
    (by decide) (by decide) (by with_unfolding_all rfl) (by with_unfolding_all rfl)
    (by with_unfolding_all rfl)
  with_unfolding_all (exact h)

/-! ### C2 -/

/-- C2: for a stock variable `(sec, var)` holding numeric value `v`, an
absolute (plain signed number) delta string parsing to `d` makes
`apply_effects` set the variable to `max(0, v + d)`, which is never
negative regardless of the magnitude or sign of `d`. -/
theorem apply_effects_stock_abs
    (w : World) (sect : WSection) (sec var : String) (v d : ℚ) (st : String)
    (hmem : (sec, var) ∈ STOCK_KEYS)
    (hdot : '.' ∉ sec.data)
    (hsec : alookup w sec = some sect)
    (hvar : alookup sect var = some (.num v))
    (hnopct : matchPctNum (strip_spaces st) = none)
    (hnum : pyFloatParse (strip_spaces st) = some d) :
    apply_effects w [(sec ++ "." ++ var, st)] =
      .ok (aset w sec (aset sect var (.num (max 0 (v + d))))) ∧
    (0 : ℚ) ≤ max 0 (v + d) := by
  refine ⟨?_, le_max_left 0 (v + d)⟩
  have hfp : find_path w (sec ++ "." ++ var) = some (sec, var) :=
    find_path_dotted w sec var sect hdot hsec (by rw [hvar]; rfl)
  rw [apply_effects_singleton,
    apply_step_resolved w (sec ++ "." ++ var) st sec var sect (.num v) hfp hsec hvar]
  have hparse : parse_effect st v = d := by
    simp only [parse_effect, hnopct, hnum]
  simp only [apply_update, pyFloat, hmem, if_pos, hparse,
    stock_not_range01 (sec, var) hmem, if_neg, if_false]

/-- Witness for C2: food 100 with delta "-150" is floored at 0. -/
theorem apply_effects_stock_abs_witness :
    apply_effects [("Resources", [("food", Val.num 100)])] [("Resources.food", "-150")] =
      .ok [("Resources", [("food", Val.num 0)])] ∧
    (0 : ℚ) ≤ max 0 ((100:ℚ) + -150) := by
  have h := apply_effects_stock_abs
    [("Resources", [("food", Val.num 100)])] [("food", Val.num 100)]
    "Resources" "food" 100 (-150) "-150"
    (by decide) (by decide) (by with_unfolding_all rfl) (by with_unfolding_all rfl)
    (by with_unfolding_all rfl) (by with_unfolding_all rfl)
  exact ⟨by with_unfolding_all (exact h.1), h.2⟩

/-! ### C3 -/

/-- C3: `apply_effects` is pure. Determinism: equal `(world, effects)`
inputs give equal outputs. No mutation: in the state-passing embedding
(where the Python loop's writes all target the deep copy), the caller's
world component after the call equals the original world, and equals the
world component of a call on a deep copy — the returned result shares no
mutable state with the input under value semantics. -/
theorem apply_effects_pure
    (w₁ w₂ : World) (e₁ e₂ : List (String × String))
    (hw : w₁ = w₂) (he : e₁ = e₂) :
    apply_effects w₁ e₁ = apply_effects w₂ e₂ ∧
    (apply_effects_st w₁ e₁).1 = w₁ ∧
    (apply_effects_st w₁ e₁).2 = apply_effects (deepcopy w₁) e₁ := by
  subst hw he
  exact ⟨rfl, rfl, rfl⟩

/-- Witness for C3 at a concrete world/effects pair. -/
theorem apply_effects_pure_witness :
    apply_effects [("State", [("stability", Val.num (1/2))])] [("State.stability", "+10%")] =
      apply_effects [("State", [("stability", Val.num (1/2))])] [("State.stability", "+10%")] ∧
    (apply_effects_st [("State", [("stability", Val.num (1/2))])] [("State.stability", "+10%")]).1 =
      [("State", [("stability", Val.num (1/2))])] ∧
    (apply_effects_st [("State", [("stability", Val.num (1/2))])] [("State.stability", "+10%")]).2 =
      apply_effects (deepcopy [("State", [("stability", Val.num (1/2))])]) [("State.stability", "+10%")] :=
  apply_effects_pure _ _ _ _ rfl rfl

/-! ### C9 -/

/-- Counterexample to C9 as stated: (i) `apply_effects` does raise when
a bounded-ratio variable holds a non-numeric value (uncaught `float(cur)`
in the clamping branch); (ii) an unparseable delta string on an
out-of-range value changes it — the zero delta is still clamped
(stability 1.5 becomes 1.0). -/
theorem apply_effects_lenient_counterexample :
    apply_effects [("State", [("stability", Val.obj)])] [("stability", "+0.05")] =
      .error () ∧
    apply_effects [("State", [("stability", Val.num (3/2))])] [("stability", "abc")] =
      .ok [("State", [("stability", Val.num 1)])] ∧
    (3 : ℚ)/2 ≠ 1 := by
  refine ⟨by with_unfolding_all rfl, by with_unfolding_all rfl, by norm_num⟩

theorem alookup_mem {α : Type} (l : List (String × α)) (k : String) (v : α)
    (h : alookup l k = some v) : (k, v) ∈ l := by
  induction l with
  | nil => simp [alookup] at h
  | cons p rest ih =>
      rcases p with ⟨k', v'⟩
      by_cases hk : k' = k
      · subst hk
        simp [alookup] at h
        simp [h]
      · simp only [alookup, if_neg hk] at h
        exact List.mem_cons_of_mem _ (ih h)

theorem mem_aset {α : Type} (l : List (String × α)) (k : String) (v : α)
    (x : String × α) (hx : x ∈ aset l k v) : x = (k, v) ∨ x ∈ l := by
  induction l with
  | nil => simp [aset] at hx; simp [hx]
  | cons p rest ih =>
      rcases p with ⟨k', v'⟩
      by_cases hk : k' = k
      · subst hk
        simp only [aset, if_pos rfl] at hx
        rcases List.mem_cons.mp hx with h | h
        · exact Or.inl h
        · exact Or.inr (List.mem_cons_of_mem _ h)
      · simp only [aset, if_neg hk] at hx
        rcases List.mem_cons.mp hx with h | h
        · exact Or.inr (h ▸ List.mem_cons_self _ _)
        · rcases ih h with h' | h'
          · exact Or.inl h'
          · exact Or.inr (List.mem_cons_of_mem _ h')

theorem numeric_world_aset (w : World) (sec var : String) (sect : WSection)
    (q : ℚ) (hw : numeric_world w) (hsect : ∀ e ∈ sect, e.2 ≠ Val.obj) :
    numeric_world (aset w sec (aset sect var (.num q))) := by
  intro p hp e he
  rcases mem_aset w sec (aset sect var (.num q)) p hp with h | h
  · subst h
    rcases mem_aset sect var (.num q) e he with h' | h'
    · subst h'; simp
    · exact hsect e h'
  · exact hw p h e he

theorem apply_step_numeric (out : World) (k vstr : String)
    (h : numeric_world out) :
    ∃ out', apply_step out k vstr = .ok out' ∧ numeric_world out' := by
  rcases hfp : find_path out k with _ | ⟨sec, var⟩
  · exact ⟨out, by simp only [apply_step, hfp], h⟩
  · rcases hsec : alookup out sec with _ | s
    · exact ⟨out, by simp only [apply_step, hfp, hsec], h⟩
    rcases hvar : alookup s var with _ | cur
    · exact ⟨out, by simp only [apply_step, hfp, hsec, hvar], h⟩
    have hsect : ∀ e ∈ s, e.2 ≠ Val.obj := fun e he =>
      h (sec, s) (alookup_mem out sec s hsec) e he
    have hcur : cur ≠ Val.obj := hsect (var, cur) (alookup_mem s var cur hvar)
    rcases cur with q | _
    · have hstep : apply_step out k vstr = apply_update out sec var s (.num q) vstr := by
        simp only [apply_step, hfp, hsec, hvar]
      by_cases h1 : (sec, var) ∈ RANGE01_KEYS
      · exact ⟨aset out sec (aset s var (.num (clamp01 (q + parse_effect vstr q)))),
          by rw [hstep]; simp only [apply_update, pyFloat, h1, if_pos],
          numeric_world_aset out sec var s _ h hsect⟩
      by_cases h2 : (sec, var) ∈ STOCK_KEYS
      · exact ⟨aset out sec (aset s var (.num (max 0 (q + parse_effect vstr q)))),
          by rw [hstep]; simp only [apply_update, pyFloat, h1, h2, if_neg, if_pos, if_false],
          numeric_world_aset out sec var s _ h hsect⟩
      · exact ⟨aset out sec (aset s var (.num (q + parse_effect vstr q))),
          by rw [hstep]; simp only [apply_update, pyFloat, h1, h2, if_neg, if_false],
          numeric_world_aset out sec var s _ h hsect⟩
    · exact absurd rfl hcur

theorem apply_loop_numeric (effs : List (String × String)) :
    ∀ out : World, numeric_world out →
      ∃ out', apply_loop out effs = .ok out' ∧ numeric_world out' := by
  induction effs with
  | nil => exact fun out h => ⟨out, rfl, h⟩
  | cons kv rest ih =>
      intro out h
      rcases apply_step_numeric out kv.1 kv.2 h with ⟨out2, hstep, h2⟩
      rcases ih out2 h2 with ⟨out', hloop, h'⟩
      refine ⟨out', ?_, h'⟩
      show apply_loop out (kv :: rest) = .ok out'
      rcases kv with ⟨k, v⟩
      simp only [apply_loop, hstep]
      exact hloop

theorem clamp01_eq_self (v : ℚ) : clamp01 v = v ↔ 0 ≤ v ∧ v ≤ 1 := by
  unfold clamp01
  constructor
  · intro h
    refine ⟨by rw [← h]; exact le_max_left _ _, ?_⟩
    by_contra hv
    push_neg at hv
    rw [min_eq_left hv.le] at h
    have : (max 0 1 : ℚ) = 1 := by norm_num
    rw [this] at h
    exact absurd h (by linarith)
  · rintro ⟨h0, h1⟩
    rw [min_eq_right h1, max_eq_right h0]

theorem max0_eq_self (v : ℚ) : max 0 v = v ↔ 0 ≤ v := by
  constructor
  · intro h; rw [← h]; exact le_max_left _ _
  · intro h; exact max_eq_right h

/-- C9 (amended): `apply_effects` (i) skips an unresolvable effect key,
returning the world unchanged; (ii) never raises on a world whose stored
values are all numeric; (iii) recovers an unparseable delta string as a
zero delta, so the targeted variable is merely re-clamped to its class
range (hence left unchanged exactly when it already lies in that range:
`[0,1]` for bounded-ratio, `≥ 0` for stock, always for unclassified). -/
theorem apply_effects_lenient
    (w : World) (sect : WSection) (sec var k st : String) (v : ℚ) :
    (find_path w k = none → apply_effects w [(k, st)] = .ok w) ∧
    (numeric_world w → ∃ w', apply_effects w [(k, st)] = .ok w') ∧
    (matchPctNum (strip_spaces st) = none → pyFloatParse (strip_spaces st) = none →
      '.' ∉ sec.data → alookup w sec = some sect → alookup sect var = some (.num v) →
      apply_effects w [(sec ++ "." ++ var, st)] =
        .ok (aset w sec (aset sect var (.num
          (if (sec, var) ∈ RANGE01_KEYS then clamp01 v
           else if (sec, var) ∈ STOCK_KEYS then max 0 v
           else v))))) ∧
    (clamp01 v = v ↔ 0 ≤ v ∧ v ≤ 1) ∧ (max 0 v = v ↔ 0 ≤ v) := by
  refine ⟨?_, ?_, ?_, clamp01_eq_self v, max0_eq_self v⟩
  · intro hfp
    rw [apply_effects_singleton]
    simp only [apply_step, hfp]
  · intro hnum
    rcases apply_loop_numeric [(k, st)] w hnum with ⟨w', hl, _⟩
    exact ⟨w', hl⟩
  · intro hnopct hnofloat hdot hsec hvar
    have hfp : find_path w (sec ++ "." ++ var) = some (sec, var) :=
      find_path_dotted w sec var sect hdot hsec (by rw [hvar]; rfl)
    rw [apply_effects_singleton,
      apply_step_resolved w (sec ++ "." ++ var) st sec var sect (.num v) hfp hsec hvar]
    have hparse : parse_effect st v = 0 := by
      simp only [parse_effect, hnopct, hnofloat]
    by_cases h1 : (sec, var) ∈ RANGE01_KEYS
    · simp only [apply_update, pyFloat, h1, if_pos, hparse, add_zero]
    · by_cases h2 : (sec, var) ∈ STOCK_KEYS <;>
        simp only [apply_update, pyFloat, h1, h2, if_neg, if_pos, if_false,
          hparse, add_zero]

/-- Witness for C9 (amended), at a concrete world and effects. -/
theorem apply_effects_lenient_witness :
    apply_effects [("State", [("stability", Val.num (1/2))])] [("no_such_key", "+1")] =
      .ok [("State", [("stability", Val.num (1/2))])] :=
  (apply_effects_lenient [("State", [("stability", Val.num (1/2))])]
    [("stability", Val.num (1/2))] "State" "stability" "no_such_key" "+1" (1/2)).1
    (by with_unfolding_all rfl)

/-! ### C4 and C10 -/

/-- Shared characterization: with a config defining all three floors and
numeric-or-absent guarded fields, `violates_guardrails` reduces to the
three-way floor test on the post world alone. -/
theorem violates_guardrails_full
    (pre post : World) (guards : Guards) (gs gl gf stab leg food : ℚ)
    (hgs : alookup guards "min_stability" = some gs)
    (hgl : alookup guards "min_legitimacy" = some gl)
    (hgf : alookup guards "min_food" = some gf)
    (hstab : getNum ((alookup post "State").getD []) "stability" 1 = .ok stab)
    (hleg : getNum ((alookup post "State").getD []) "legitimacy" 1 = .ok leg)
    (hfood : getNum ((alookup post "Resources").getD []) "food" 0 = .ok food) :
    violates_guardrails pre post guards =
      .ok (decide (stab < gs ∨ leg < gl ∨ food ≤ gf)) := by
  simp only [violates_guardrails, hgs, hgl, hgf, hstab, hleg, hfood]
  by_cases h1 : stab < gs
  · simp [h1]
  · by_cases h2 : leg < gl
    · simp [h1, h2]
    · by_cases h3 : food ≤ gf
      · simp [h1, h2, h3]
      · simp [h1, h2, h3]

/-- Counterexample to C4 as stated: with the one-key config
`{min_stability: 0.30}` and post stability `0.5` (at or above the floor),
the function raises `KeyError` on the missing `min_legitimacy` key
instead of returning false. -/
theorem violates_guardrails_counterexample :
    violates_guardrails [] [("State", [("stability", Val.num (1/2))])]
      [("min_stability", 3/10)] = .error () ∧
    ¬ ((1 : ℚ)/2 < 3/10) :=
  ⟨by with_unfolding_all rfl, by norm_num⟩

/-- C4 (amended): `violates_guardrails` is independent of `pre`. With the
one-key config `{min_stability: 0.30}` it returns true when post
stability is below 0.30 and otherwise raises `KeyError` (missing
`min_legitimacy`) rather than returning false. With a config defining all
three floors it returns true iff stability is below `min_stability`, or
legitimacy below `min_legitimacy`, or food at or below `min_food`, all
read from the post world only. -/
theorem violates_guardrails_spec :
    (∀ (pre pre' post : World) (g : Guards),
      violates_guardrails pre post g = violates_guardrails pre' post g) ∧
    (∀ (pre post : World) (stab : ℚ),
      getNum ((alookup post "State").getD []) "stability" 1 = .ok stab →
      violates_guardrails pre post [("min_stability", 3/10)] =
        (if stab < 3/10 then .ok true else .error ())) ∧
    (∀ (pre post : World) (g : Guards) (gs gl gf stab leg food : ℚ),
      alookup g "min_stability" = some gs →
      alookup g "min_legitimacy" = some gl →
      alookup g "min_food" = some gf →
      getNum ((alookup post "State").getD []) "stability" 1 = .ok stab →
      getNum ((alookup post "State").getD []) "legitimacy" 1 = .ok leg →
      getNum ((alookup post "Resources").getD []) "food" 0 = .ok food →
      (violates_guardrails pre post g = .ok true ↔
        (stab < gs ∨ leg < gl ∨ food ≤ gf))) := by
  refine ⟨fun pre pre' post g => rfl, ?_, ?_⟩
  · intro pre post stab hstab
    have hg : alookup [("min_stability", (3:ℚ)/10)] "min_stability" = some (3/10) := by
      with_unfolding_all rfl
    have hng : alookup [("min_stability", (3:ℚ)/10)] "min_legitimacy" = none := by
      with_unfolding_all rfl
    simp only [violates_guardrails, hg, hng, hstab]
  · intro pre post g gs gl gf stab leg food hgs hgl hgf hstab hleg hfood
    rw [violates_guardrails_full pre post g gs gl gf stab leg food
      hgs hgl hgf hstab hleg hfood]
    simp

/-- Witness for C4 (amended): a concrete post world with stability 0.20
violates the default full config. -/
theorem violates_guardrails_spec_witness :
    violates_guardrails [] [("State", [("stability", Val.num (1/5))])]
      [("min_stability", 3/10), ("min_legitimacy", 3/10), ("min_food", 1)] = .ok true := by
  have h := violates_guardrails_spec.2.2 [] [("State", [("stability", Val.num (1/5))])]
    [("min_stability", 3/10), ("min_legitimacy", 3/10), ("min_food", 1)]
    (3/10) (3/10) 1 (1/5) 1 0
    (by with_unfolding_all rfl) (by with_unfolding_all rfl) (by with_unfolding_all rfl)
    (by with_unfolding_all rfl) (by with_unfolding_all rfl) (by with_unfolding_all rfl)
  exact h.mpr (Or.inl (by norm_num))

/-- C10: when `Resources.food` is absent from the post world it defaults
to `0.0`, while missing stability/legitimacy default to `1.0`; so under a
full config with `min_food ≥ 0` (the food floor check is `≤`), a post
world lacking a food value is always reported as violating. -/
theorem violates_guardrails_missing_food
    (pre post : World) (guards : Guards) (gs gl gf stab leg : ℚ)
    (hgs : alookup guards "min_stability" = some gs)
    (hgl : alookup guards "min_legitimacy" = some gl)
    (hgf : alookup guards "min_food" = some gf)
    (hf : 0 ≤ gf)
    (hstab : getNum ((alookup post "State").getD []) "stability" 1 = .ok stab)
    (hleg : getNum ((alookup post "State").getD []) "legitimacy" 1 = .ok leg)
    (hfood : alookup ((alookup post "Resources").getD []) "food" = none) :
    violates_guardrails pre post guards = .ok true := by
  have hfood' : getNum ((alookup post "Resources").getD []) "food" 0 = .ok 0 := by
    unfold getNum
    rw [hfood]
  rw [violates_guardrails_full pre post guards gs gl gf stab leg 0
    hgs hgl hgf hstab hleg hfood']
  have : decide (stab < gs ∨ leg < gl ∨ (0:ℚ) ≤ gf) = true :=
    decide_eq_true (Or.inr (Or.inr hf))
  rw [this]

/-- Witness for C10: an empty post world (stability and legitimacy
default to 1.0, food to 0.0) violates the default config. -/
theorem violates_guardrails_missing_food_witness :
    violates_guardrails [] [("State", [])]
      [("min_stability", 3/10), ("min_legitimacy", 3/10), ("min_food", 1)] = .ok true :=
  violates_guardrails_missing_food [] [("State", [])]
    [("min_stability", 3/10), ("min_legitimacy", 3/10), ("min_food", 1)]
    (3/10) (3/10) 1 1 1
    (by with_unfolding_all rfl) (by with_unfolding_all rfl) (by with_unfolding_all rfl)
    (by norm_num)
    (by with_unfolding_all rfl) (by with_unfolding_all rfl) (by with_unfolding_all rfl)

/-! ### C8 -/

/-- C8: whenever `is_negligible_change` returns true, every tracked stock
present (numeric) in both worlds moved by less than `min_stock_pct` of
its pre-value, and every tracked bounded-ratio variable present in both
worlds moved by less than the fixed absolute threshold 0.01. -/
theorem is_negligible_change_sound
    (pre post : World) (pct : ℚ)
    (h : is_negligible_change pre post pct = true) :
    (∀ p ∈ NEG_STOCKS, ∀ a b : ℚ, get_path2 pre p.1 p.2 = some a →
      get_path2 post p.1 p.2 = some b → |b - a| < |a| * pct) ∧
    (∀ p ∈ NEG_RANGES, ∀ a b : ℚ, get_path2 pre p.1 p.2 = some a →
      get_path2 post p.1 p.2 = some b → |b - a| < 1 / 100) := by
  unfold is_negligible_change at h
  rw [Bool.and_eq_true] at h
  obtain ⟨h1, h2⟩ := h
  rw [List.all_eq_true] at h1
  rw [List.all_eq_true] at h2
  constructor
  · intro p hp a b ha hb
    have hx := h1 p hp
    rw [ha, hb] at hx
    simpa using hx
  · intro p hp a b ha hb
    have hx := h2 p hp
    rw [ha, hb] at hx
    simpa using hx

/-- Witness for C8 at identical pre/post worlds. -/
theorem is_negligible_change_sound_witness :
    |(100 : ℚ) - 100| < |(100 : ℚ)| * (1/200) :=
  (is_negligible_change_sound
    [("Resources", [("food", Val.num 100)])]
    [("Resources", [("food", Val.num 100)])]
    (1/200) (by with_unfolding_all rfl)).1
    ("Resources", "food") (by decide) 100 100
    (by with_unfolding_all rfl) (by with_unfolding_all rfl)

/-! ### C5 -/

theorem priority_entries_ge_50 : ∀ p ∈ PRIORITY, (50 : Int) ≤ p.2 := by decide

theorem weight_ge_50 (k : String) : (50 : Int) ≤ (alookup PRIORITY k).getD 50 := by
  rcases h : alookup PRIORITY k with _ | v
  · simp
  · have hm : (k, v) ∈ PRIORITY := alookup_mem PRIORITY k v h
    simpa using priority_entries_ge_50 (k, v) hm

/-- Counterexample to C5 as stated: an action with an empty effects dict
scores 0, not the baseline 50 the spec assigns to actions with no
matching key, so it sorts after a baseline-scored action instead of
keeping a tie in submission order. -/
theorem order_actions_counterexample :
    score_action [] = 0 ∧ score_action_spec [] = 50 ∧
    order_actions [⟨"p1", []⟩, ⟨"p2", [("x", "+1")]⟩] =
      [⟨"p2", [("x", "+1")]⟩, ⟨"p1", []⟩] :=
  ⟨by with_unfolding_all rfl, by with_unfolding_all rfl, by with_unfolding_all rfl⟩

/-- C5 (amended): for a nonempty effects dict the score is the spec's
max-weight-with-baseline-50; an empty effects dict scores 0 and so sorts
last. `order_actions` permutes its input, the position-tagged sort is
ordered by (score descending, submission position ascending) — a stable
descending sort — and the output is a function of the input
(deterministic). -/
theorem order_actions_spec :
    (∀ e : List (String × String), e ≠ [] → score_action e = score_action_spec e) ∧
    (∀ l : List Action, (order_actions l).Perm l) ∧
    (∀ l : List Action, List.Sorted act_le ((l.enum).insertionSort act_le)) ∧
    (∀ l l' : List Action, l = l' → order_actions l = order_actions l') := by
  refine ⟨?_, ?_, ?_, fun l l' h => h ▸ rfl⟩
  · intro e he
    rcases e with _ | ⟨kv, rest⟩
    · exact absurd rfl he
    · unfold score_action score_action_spec
      rw [List.foldl_map]
      simp only [List.foldl_cons]
      rw [max_eq_right (le_trans (by norm_num) (weight_ge_50 kv.1)),
          max_eq_right (weight_ge_50 kv.1)]
  · intro l
    have h1 := List.perm_insertionSort act_le (l.enum)
    have h2 := h1.map Prod.snd
    rw [List.enum_map_snd] at h2
    exact h2
  · intro l
    exact List.sorted_insertionSort act_le (l.enum)

/-- Witness for C5 (amended) at a concrete batch. -/
theorem order_actions_spec_witness :
    score_action [("x", "+1")] = score_action_spec [("x", "+1")] ∧
    (order_actions [Action.mk "p1" [("State.stability", "+1")],
                    Action.mk "p2" [("x", "+1")]]).Perm
      [Action.mk "p1" [("State.stability", "+1")],
       Action.mk "p2" [("x", "+1")]] :=
  ⟨order_actions_spec.1 [("x", "+1")] (by simp),
   order_actions_spec.2.1 _⟩

/-! ### C6 -/

theorem bus_inbox_mem (bus : MessageBus) (m : Message) (role : String) (t : Nat) :
    m ∈ inbox bus role t ↔ (m ∈ bus ∧ role ∈ m.receivers ∧ t ≤ m.valid_until_tick) := by
  unfold inbox
  rw [List.mem_filter]
  simp [and_assoc]

theorem run_ops_not_mem (m : Message) (ops : List BusOp) :
    ∀ bus : MessageBus, m ∉ bus → (∀ op ∈ ops, op ≠ BusOp.post m) →
      m ∉ run_ops bus ops := by
  induction ops with
  | nil => exact fun bus h _ => h
  | cons op rest ih =>
      intro bus h hops
      rcases op with m' | t
      · have hm' : m' ≠ m := fun he =>
          (hops (BusOp.post m') (List.mem_cons_self _ _)) (by rw [he])
        show m ∉ run_ops (post bus m') rest
        apply ih
        · intro hc
          unfold post at hc
          rcases List.mem_append.mp hc with h1 | h1
          · exact h h1
          · exact hm' (List.mem_singleton.mp h1).symm
        · exact fun op hop => hops op (List.mem_cons_of_mem _ hop)
      · show m ∉ run_ops (gc bus t) rest
        apply ih
        · exact fun hc => h (List.mem_of_mem_filter hc)
        · exact fun op hop => hops op (List.mem_cons_of_mem _ hop)

/-- C6: a message is in `inbox(role, t)` iff it is on the bus, addressed
to the role, and `t` is at most its expiry tick (visible through the
expiry tick inclusive). After `gc(tg)` with `tg` past the expiry, the
message is gone, and stays out of every later `inbox` or `all_for_tick`
view across any further operations that do not repost it. -/
theorem message_visibility
    (bus : MessageBus) (m : Message) (role : String) (t tg : Nat) (ops : List BusOp)
    (hexp : m.valid_until_tick < tg)
    (hops : ∀ op ∈ ops, op ≠ BusOp.post m) :
    (m ∈ inbox bus role t ↔ (m ∈ bus ∧ role ∈ m.receivers ∧ t ≤ m.valid_until_tick)) ∧
    m ∉ run_ops (gc bus tg) ops ∧
    (∀ (role' : String) (t' : Nat), m ∉ inbox (run_ops (gc bus tg) ops) role' t') ∧
    (∀ t' : Nat, m ∉ all_for_tick (run_ops (gc bus tg) ops) t') := by
  have hgc : m ∉ gc bus tg := by
    intro hc
    have h2 := (List.mem_filter.mp hc).2
    simp only [decide_eq_true_eq] at h2
    omega
  have hrun : m ∉ run_ops (gc bus tg) ops := run_ops_not_mem m ops _ hgc hops
  refine ⟨bus_inbox_mem bus m role t, hrun, ?_, ?_⟩
  · exact fun role' t' hc => hrun (List.mem_of_mem_filter hc)
  · exact fun t' hc => hrun (List.mem_of_mem_filter hc)

/-- Witness for C6: one message expiring at tick 5, queried at tick 5,
garbage-collected at tick 6, with no further operations. -/
theorem message_visibility_witness :
    (Message.mk "A" ["B"] "inform" [] 5 "m1" ∈
        inbox [Message.mk "A" ["B"] "inform" [] 5 "m1"] "B" 5 ↔
      (Message.mk "A" ["B"] "inform" [] 5 "m1" ∈
          [Message.mk "A" ["B"] "inform" [] 5 "m1"] ∧
        "B" ∈ (Message.mk "A" ["B"] "inform" [] 5 "m1").receivers ∧
        5 ≤ (Message.mk "A" ["B"] "inform" [] 5 "m1").valid_until_tick)) ∧
    Message.mk "A" ["B"] "inform" [] 5 "m1" ∉
      run_ops (gc [Message.mk "A" ["B"] "inform" [] 5 "m1"] 6) [] ∧
    (∀ (role' : String) (t' : Nat), Message.mk "A" ["B"] "inform" [] 5 "m1" ∉
      inbox (run_ops (gc [Message.mk "A" ["B"] "inform" [] 5 "m1"] 6) []) role' t') ∧
    (∀ t' : Nat, Message.mk "A" ["B"] "inform" [] 5 "m1" ∉
      all_for_tick (run_ops (gc [Message.mk "A" ["B"] "inform" [] 5 "m1"] 6) []) t') :=
  message_visibility [Message.mk "A" ["B"] "inform" [] 5 "m1"]
    (Message.mk "A" ["B"] "inform" [] 5 "m1") "B" 5 6 []
    (by decide) (by simp)

/-! ### C7 -/

theorem alookup_aset_ne {α : Type} (l : List (String × α)) (k k' : String) (v : α)
    (h : k ≠ k') : alookup (aset l k v) k' = alookup l k' := by
  induction l with
  | nil => simp [aset, alookup, h]
  | cons p rest ih =>
      rcases p with ⟨k0, v0⟩
      by_cases hk : k0 = k
      · subst hk
        simp only [aset, if_pos rfl, alookup, if_neg h]
      · simp only [aset, if_neg hk, alookup]
        by_cases hk' : k0 = k'
        · simp [hk']
        · simp [hk', ih]

theorem alookup_append_right {α : Type} (l1 l2 : List (String × α)) (k : String)
    (h : alookup l1 k = none) : alookup (l1 ++ l2) k = alookup l2 k := by
  induction l1 with
  | nil => simp
  | cons p rest ih =>
      rcases p with ⟨k0, v0⟩
      by_cases hk : k0 = k
      · simp [alookup, hk] at h
      · simp only [alookup, if_neg hk] at h
        simp only [List.cons_append, alookup, if_neg hk]
        exact ih h

theorem add_propose_lookup_ne (ps : List (String × List Message)) (s sig : String)
    (m : Message) (h : s ≠ sig) (hps : alookup ps sig = none) :
    alookup (add_propose ps s m) sig = none := by
  unfold add_propose
  rcases hs : alookup ps s with _ | l
  · rw [alookup_append_right ps [(s, [m])] sig hps]
    simp [alookup, h]
  · rw [alookup_aset_ne ps s sig (l ++ [m]) h]
    exact hps

theorem build_proposes_from_none (sig : String) :
    ∀ (msgs : List Message) (ps : List (String × List Message)),
      (∀ m ∈ msgs, m.intent ∈ ProposeLike → key_from_content m.content ≠ sig) →
      alookup ps sig = none →
      alookup (build_proposes_from ps msgs) sig = none := by
  intro msgs
  induction msgs with
  | nil => exact fun ps _ hps => hps
  | cons m rest ih =>
      intro ps h hps
      show alookup (build_proposes_from
        (if m.intent ∈ ProposeLike then add_propose ps (key_from_content m.content) m
         else ps) rest) sig = none
      by_cases hm : m.intent ∈ ProposeLike
      · rw [if_pos hm]
        apply ih _ (fun m' hm' hp' => h m' (List.mem_cons_of_mem _ hm') hp')
        exact add_propose_lookup_ne ps _ sig m (h m (List.mem_cons_self _ _) hm) hps
      · rw [if_neg hm]
        exact ih _ (fun m' hm' hp' => h m' (List.mem_cons_of_mem _ hm') hp') hps

theorem build_proposes_from_skip (m : Message) (hm : m.intent ∉ ProposeLike) :
    ∀ (l1 l2 : List Message) (ps : List (String × List Message)),
      build_proposes_from ps (l1 ++ m :: l2) = build_proposes_from ps (l1 ++ l2) := by
  intro l1
  induction l1 with
  | nil =>
      intro l2 ps
      show build_proposes_from (if m.intent ∈ ProposeLike then _ else ps) l2 = _
      rw [if_neg hm, List.nil_append]
  | cons m0 rest ih =>
      intro l2 ps
      show build_proposes_from _ (rest ++ m :: l2) = build_proposes_from _ (rest ++ l2)
      exact ih l2 _

theorem collect_agreements_skip (proposes : List (String × List Message))
    (m : Message) (hm : agreement_of proposes m = []) :
    ∀ (l1 l2 : List Message) (acc : List Agreement),
      collect_agreements proposes acc (l1 ++ m :: l2) =
        collect_agreements proposes acc (l1 ++ l2) := by
  intro l1
  induction l1 with
  | nil =>
      intro l2 acc
      show collect_agreements proposes (acc ++ agreement_of proposes m) l2 = _
      rw [hm, List.append_nil, List.nil_append]
  | cons m0 rest ih =>
      intro l2 acc
      show collect_agreements proposes _ (rest ++ m :: l2) =
        collect_agreements proposes _ (rest ++ l2)
      exact ih l2 _

theorem agreement_of_accept_none (proposes : List (String × List Message))
    (m : Message) (hm : m.intent = "accept")
    (h : alookup proposes (key_from_content m.content) = none) :
    agreement_of proposes m = [] := by
  unfold agreement_of
  rw [hm]
  rw [if_neg (by decide : ¬ ("accept" ∈ CommitLike)),
      if_pos (by decide : ("accept" ∈ AcceptLike)), h]

/-- C7: the propose/accept example yields exactly the one agreement
(proposer A, partner [B], terms {price:+5%}); a structurally identical
duplicate accept is deduplicated away; and in general an accept whose
content signature matches no proposal-like message in the batch
contributes no agreement at all. -/
theorem extract_agreements_spec :
    extract_accepted_agreements
        [Message.mk "A" ["B"] "propose" [("price", "+5%")] 5 "m1",
         Message.mk "B" ["A"] "accept" [("price", "+5%")] 5 "m2"] =
      [Agreement.mk "A" ["B"] [("price", "+5%")]] ∧
    extract_accepted_agreements
        [Message.mk "A" ["B"] "propose" [("price", "+5%")] 5 "m1",
         Message.mk "B" ["A"] "accept" [("price", "+5%")] 5 "m2",
         Message.mk "B" ["A"] "accept" [("price", "+5%")] 5 "m3"] =
      [Agreement.mk "A" ["B"] [("price", "+5%")]] ∧
    (∀ (l1 l2 : List Message) (m : Message),
      m.intent = "accept" →
      (∀ m' ∈ l1 ++ m :: l2, m'.intent ∈ ProposeLike →
        key_from_content m'.content ≠ key_from_content m.content) →
      extract_accepted_agreements (l1 ++ m :: l2) =
        extract_accepted_agreements (l1 ++ l2)) := by
  refine ⟨by with_unfolding_all rfl, by with_unfolding_all rfl, ?_⟩
  intro l1 l2 m hm hnone
  have hmp : m.intent ∉ ProposeLike := by rw [hm]; decide
  have hbp : build_proposes (l1 ++ m :: l2) = build_proposes (l1 ++ l2) :=
    build_proposes_from_skip m hmp l1 l2 []
  have hlook : alookup (build_proposes (l1 ++ l2)) (key_from_content m.content) = none := by
    apply build_proposes_from_none _ (l1 ++ l2) [] _ rfl
    intro m' hm' hp'
    apply hnone m' _ hp'
    rcases List.mem_append.mp hm' with h1 | h1
    · exact List.mem_append.mpr (Or.inl h1)
    · exact List.mem_append.mpr (Or.inr (List.mem_cons_of_mem _ h1))
  show dedup_agreements (raw_agreements (l1 ++ m :: l2)) [] =
    dedup_agreements (raw_agreements (l1 ++ l2)) []
  unfold raw_agreements
  rw [hbp]
  rw [collect_agreements_skip (build_proposes (l1 ++ l2)) m
    (agreement_of_accept_none _ m hm hlook) l1 l2 []]

/-- Witness for C7: a lone accept with no matching proposal yields the
same (empty) agreement list as no messages at all. -/
theorem extract_agreements_spec_witness :
    extract_accepted_agreements [Message.mk "B" ["A"] "accept" [("price", "+5%")] 5 "m9"] =
      extract_accepted_agreements ([] : List Message) :=
  extract_agreements_spec.2.2 [] [] (Message.mk "B" ["A"] "accept" [("price", "+5%")] 5 "m9")
    rfl
    (by
      intro m' h1 h2
      rw [List.nil_append, List.mem_singleton] at h1
      subst h1
      exact absurd h2 (by decide))

end SocietySim
